import Mathlib

/-!
Verification of the paragraph-reconstruction core of `pdf_processor_complete.py`.

Coordinates are modelled as rationals (`ℚ`); texts as lists of characters.
The Unicode general-category test `unicodedata.category(c).startswith("P")`
is modelled as an abstract parameter `catP : Char → Bool`.
Fallible operations (indexing `text[0]`, `text[-1]`, `min`/`max` of an empty
coordinate list, `box[0]`/`box[2]` indexing) return `Option`, with `none`
standing for a raised Python exception.
-/

namespace PdfProc

/-- A text block as built by `PDFProcessor.extract_text` / `_ocr_image`:
the dict `{box, text, from, end, score}` (`score` present only for OCR). -/
structure TextBlock where
  box : List (ℚ × ℚ)
  text : List Char
  src : String
  end_ : String
  score : Option ℚ
deriving DecidableEq

/-- Axis-aligned extent `(l, t, r, b)` of a list of box points. -/
structure Ext where
  l : ℚ
  t : ℚ
  r : ℚ
  b : ℚ
deriving DecidableEq

/-- `get_bbox_bounds` from `ParagraphParse._parse`: `min xs, min ys, max xs, max ys`.
`none` models the `ValueError` Python raises on an empty point list. -/
def get_bbox_bounds : List (ℚ × ℚ) → Option Ext
  | [] => none
  | p :: ps =>
      some { l := (ps.map Prod.fst).foldl min p.1
           , t := (ps.map Prod.snd).foldl min p.2
           , r := (ps.map Prod.fst).foldl max p.1
           , b := (ps.map Prod.snd).foldl max p.2 }

/-- One unit of `ParagraphParse._get_units`: `(bbox, (text[0], text[-1]), tb)`,
with the block itself represented by its position `idx` in the input list. -/
structure TUnit where
  box : List (ℚ × ℚ)
  first : Char
  last : Char
  idx : Nat
deriving DecidableEq

/-- `ParagraphParse._get_units`, threading the input position; `none` models the
`IndexError` on `text[0]` / `text[-1]` for an empty text. -/
def getUnitsAux : Nat → List TextBlock → Option (List TUnit)
  | _, [] => some []
  | i, tb :: rest =>
      match tb.text.head?, tb.text.getLast?, getUnitsAux (i + 1) rest with
      | some c1, some c2, some us => some (⟨tb.box, c1, c2, i⟩ :: us)
      | _, _, _ => none

def getUnits (blocks : List TextBlock) : Option (List TUnit) :=
  getUnitsAux 0 blocks

/-- The CJK code-point ranges of `ParagraphParse._word_separator.is_cjk`. -/
def cjk_ranges : List (Nat × Nat) :=
  [(0x4E00, 0x9FFF), (0x3040, 0x30FF), (0x1100, 0x11FF),
   (0x3130, 0x318F), (0xAC00, 0xD7AF), (0x3000, 0x303F),
   (0xFE30, 0xFE4F), (0xFF00, 0xFFEF)]

/-- `is_cjk` from `ParagraphParse._word_separator`. -/
def is_cjk (c : Char) : Bool :=
  cjk_ranges.any (fun p => decide (p.1 ≤ c.toNat ∧ c.toNat ≤ p.2))

/-- `ParagraphParse._word_separator`; `catP c` models
`unicodedata.category(c).startswith("P")`. -/
def word_separator (catP : Char → Bool) (letter1 letter2 : Char) : String :=
  if is_cjk letter1 && is_cjk letter2 then ""
  else if letter1 = '-' then ""
  else if catP letter2 then ""
  else " "

/-- The running paragraph state of the `_parse` loop:
`para_l`, `para_r`, `para_bottom`, `para_line_h`, `para_line_s`. -/
structure PState where
  para_l : ℚ
  para_r : ℚ
  para_bottom : ℚ
  para_line_h : ℚ
  para_line_s : Option ℚ
deriving DecidableEq

/-- Third conjunct of the same-paragraph test:
`para_line_s is None or ls < para_line_s + para_line_h * 0.5`. -/
def spacing_ok (s? : Option ℚ) (ls lineH : ℚ) : Bool :=
  match s? with
  | none => true
  | some s => decide (ls < s + lineH * (1/2))

/-- The same-paragraph test of `_parse` (all three conjuncts). -/
def same_para (st : PState) (l r ls : ℚ) : Bool :=
  (decide (|st.para_l - l| ≤ st.para_line_h * (12/10)) &&
   decide (|st.para_r - r| ≤ st.para_line_h * (12/10))) &&
  spacing_ok st.para_line_s ls st.para_line_h

/-- Merge branch of `_parse`: averages of bounds, line height and spacing,
then `para_bottom = bottom`. -/
def merge_state (st : PState) (e : Ext) : PState :=
  { para_l := (st.para_l + e.l) / 2
  , para_r := (st.para_r + e.r) / 2
  , para_bottom := e.b
  , para_line_h := (st.para_line_h + (e.b - e.t)) / 2
  , para_line_s :=
      match st.para_line_s with
      | none => some (e.t - st.para_bottom)
      | some s => some ((s + (e.t - st.para_bottom)) / 2) }

/-- Split branch of `_parse`: reseed the running paragraph from the new
observation, with fresh undefined spacing, then `para_bottom = bottom`. -/
def seed_state (e : Ext) : PState :=
  { para_l := e.l
  , para_r := e.r
  , para_bottom := e.b
  , para_line_h := e.b - e.t
  , para_line_s := none }

/-- A unit annotated with its precomputed extent. -/
abbrev UB := TUnit × Ext

/-- The clustering loop of `_parse` (`for i in range(1, len(units))`),
returning the completed paragraph list. -/
def parseAux (st : PState) (cur : List UB) : List UB → List (List UB)
  | [] => [cur]
  | ub :: rest =>
      if same_para st ub.2.l ub.2.r (ub.2.t - st.para_bottom) then
        parseAux (merge_state st ub.2) (cur ++ [ub]) rest
      else
        cur :: parseAux (seed_state ub.2) [ub] rest

/-- Annotate each unit with its extent; `none` if some box is empty
(where Python would raise while computing the sort key). -/
def annotate : List TUnit → Option (List UB)
  | [] => some []
  | u :: rest =>
      match get_bbox_bounds u.box, annotate rest with
      | some e, some tl => some ((u, e) :: tl)
      | _, _ => none

/-- The stable ascending sort by `top` of `_parse`
(`units.sort(key=lambda a: get_bbox_bounds(a[0])[1])`). -/
def sort_top (ubs : List UB) : List UB :=
  List.insertionSort (fun a b => a.2.t ≤ b.2.t) ubs

/-- The separator-assignment loop of `_parse` for one paragraph: adjacent
pairs get `word_separator(last char of A, first char of B)`, the final
observation gets `"\n"`. -/
def para_seps (catP : Char → Bool) : List UB → List (Nat × String)
  | [] => []
  | [u] => [(u.1.idx, "\n")]
  | u :: v :: rest =>
      (u.1.idx, word_separator catP u.1.last v.1.first) :: para_seps catP (v :: rest)

/-- `ParagraphParse._parse` up to (and including) the clustering scan:
the produced paragraphs, in order. -/
def parse_paras (units : List TUnit) : Option (List (List UB)) :=
  match units with
  | [] => some []
  | _ :: _ =>
      match annotate units with
      | none => none
      | some ubs =>
          match sort_top ubs with
          | [] => some []
          | ub0 :: rest => some (parseAux (seed_state ub0.2) [ub0] rest)

/-- `ParagraphParse._parse` in full: the sequence of `set_end` calls it makes,
as `(block index, separator)` pairs in call order. -/
def parse (catP : Char → Bool) (units : List TUnit) : Option (List (Nat × String)) :=
  (parse_paras units).map (fun paras => paras.flatMap (para_seps catP))

/-- `set_end`: write a block's `end` field in place
(`lambda tb, sep: tb.update({"end": sep})`). -/
def set_end : List TextBlock → Nat → String → List TextBlock
  | [], _, _ => []
  | b :: rest, 0, s => { b with end_ := s } :: rest
  | b :: rest, Nat.succ n, s => b :: set_end rest n s

/-- Apply the `set_end` calls in order. -/
def set_ends (blocks : List TextBlock) (asg : List (Nat × String)) : List TextBlock :=
  asg.foldl (fun bs p => set_end bs p.1 p.2) blocks

/-- `ParagraphParse.run`: build units, parse, and return the input blocks with
their `end` fields updated in place. -/
def run (catP : Char → Bool) (blocks : List TextBlock) : Option (List TextBlock) :=
  match getUnits blocks with
  | none => none
  | some units =>
      match parse catP units with
      | none => none
      | some asg => some (set_ends blocks asg)

/-- `PDFProcessor._is_in_ignore_area`: the center of `(x0, y0, x1, y1)` lies
in some ignore rectangle, boundaries included. -/
def is_in_ignore_area (bbox : ℚ × ℚ × ℚ × ℚ)
    (ignore_areas : List (ℚ × ℚ × ℚ × ℚ)) : Bool :=
  let cx := (bbox.1 + bbox.2.2.1) / 2
  let cy := (bbox.2.1 + bbox.2.2.2) / 2
  ignore_areas.any (fun a =>
    decide (a.1 ≤ cx ∧ cx ≤ a.2.2.1 ∧ a.2.1 ≤ cy ∧ cy ≤ a.2.2.2))

/-- The bbox `_filter_ignore_areas` derives from a block:
`(box[0][0], box[0][1], box[2][0], box[2][1])`; `none` models the
`IndexError` when the box has fewer than 3 points. -/
def block_bbox (b : TextBlock) : Option (ℚ × ℚ × ℚ × ℚ) :=
  match b.box.get? 0, b.box.get? 2 with
  | some p0, some p2 => some (p0.1, p0.2, p2.1, p2.2)
  | _, _ => none

/-- `PDFProcessor._filter_ignore_areas`. -/
def filter_ignore_areas (blocks : List TextBlock)
    (ignore_areas : List (ℚ × ℚ × ℚ × ℚ)) : Option (List TextBlock) :=
  match blocks with
  | [] => some []
  | b :: rest =>
      match block_bbox b, filter_ignore_areas rest ignore_areas with
      | some bb, some tl =>
          some (if is_in_ignore_area bb ignore_areas then tl else b :: tl)
      | _, _ => none

/-- Observation collection followed by reconstruction: `_filter_ignore_areas`
then `ParagraphParse.run`, as in `PDFProcessor.extract_text`. -/
def pipeline (catP : Char → Bool) (blocks : List TextBlock)
    (ignore_areas : List (ℚ × ℚ × ℚ × ℚ)) : Option (List TextBlock) :=
  match filter_ignore_areas blocks ignore_areas with
  | none => none
  | some kept => run catP kept

/-- A native text line of `extract_text`: its rect bbox and its text. -/
structure NativeLine where
  bbox : ℚ × ℚ × ℚ × ℚ
  text : List Char
deriving DecidableEq

/-- The 4-point box `extract_text` builds from a native line's rect. -/
def rect_box (bbox : ℚ × ℚ × ℚ × ℚ) : List (ℚ × ℚ) :=
  [(bbox.1, bbox.2.1), (bbox.2.2.1, bbox.2.1),
   (bbox.2.2.1, bbox.2.2.2), (bbox.1, bbox.2.2.2)]

/-- The native-text branch of `extract_text`: keep a line only if its text is
non-empty and its bbox center is outside every ignore area. -/
def native_text_blocks (lines : List NativeLine)
    (ignore_areas : List (ℚ × ℚ × ℚ × ℚ)) : List TextBlock :=
  lines.filterMap (fun ln =>
    if ln.text.isEmpty = false ∧ is_in_ignore_area ln.bbox ignore_areas = false then
      some { box := rect_box ln.bbox, text := ln.text
           , src := "text", end_ := "", score := none }
    else none)

/-- An OCR recognition result `{box, text, score}`. -/
structure OcrItem where
  box : List (ℚ × ℚ)
  text : List Char
  score : ℚ
deriving DecidableEq

/-- `PDFProcessor._ocr_image`: wrap each recognition result as a block,
with no filtering of the text. -/
def ocr_blocks (items : List OcrItem) : List TextBlock :=
  items.map (fun it =>
    { box := it.box, text := it.text, src := "ocr", end_ := "", score := some it.score })

end PdfProc

namespace PdfProc

/-! ### Claim-side definitions

These render the wording of the specification's claims, to be compared
with the source-translated definitions above. -/

/-- The same-paragraph test as worded by the spec: all of
`|para_left − l| ≤ 1.2·para_line_h`, `|para_right − r| ≤ 1.2·para_line_h`,
and (`s` undefined or `ls < s + 0.5·para_line_h`), over the running values. -/
def claim_merge_cond (st : PState) (e : Ext) : Bool :=
  (decide (|st.para_l - e.l| ≤ (12/10) * st.para_line_h) &&
   decide (|st.para_r - e.r| ≤ (12/10) * st.para_line_h)) &&
  (match st.para_line_s with
   | none => true
   | some s => decide (e.t - st.para_bottom < s + (1/2) * st.para_line_h))

/-- The merge update as worded by the spec: two-point averages for
`para_left`, `para_right`, `para_line_h`; `s` becomes `ls` if previously
undefined else `(s+ls)/2`; then `para_bottom = b`. -/
def claim_merge_state (st : PState) (e : Ext) : PState :=
  { para_l := (st.para_l + e.l) / 2
  , para_r := (st.para_r + e.r) / 2
  , para_line_h := (st.para_line_h + (e.b - e.t)) / 2
  , para_line_s :=
      match st.para_line_s with
      | none => some (e.t - st.para_bottom)
      | some s => some ((s + (e.t - st.para_bottom)) / 2)
  , para_bottom := e.b }

/-- The seed of a fresh paragraph as worded by the spec: bounds and line
height from the observation, fresh undefined `s`; then `para_bottom = b`. -/
def claim_seed_state (e : Ext) : PState :=
  { para_l := e.l
  , para_r := e.r
  , para_line_h := e.b - e.t
  , para_line_s := none
  , para_bottom := e.b }

/-- Claim C1: after the ascending-by-top sort, each subsequent observation is
merged into the running paragraph if and only if the three tolerance tests
hold on the running values before any update; on a merge the running values
become the two-point averages and `s` is averaged in; on a failure a fresh
paragraph is seeded from the observation; in both branches `para_bottom`
becomes the observation's bottom. -/
theorem c1_merge_step (st : PState) (cur rest : List UB) (ub : UB) :
    parseAux st cur (ub :: rest) =
      if claim_merge_cond st ub.2 then
        parseAux (claim_merge_state st ub.2) (cur ++ [ub]) rest
      else
        cur :: parseAux (claim_seed_state ub.2) [ub] rest := by
  have hc : claim_merge_cond st ub.2
      = same_para st ub.2.l ub.2.r (ub.2.t - st.para_bottom) := by
    rw [Bool.eq_iff_iff]
    cases hs : st.para_line_s <;>
      simp [claim_merge_cond, same_para, spacing_ok, hs, mul_comm]
  have hm : claim_merge_state st ub.2 = merge_state st ub.2 := rfl
  have hs : claim_seed_state ub.2 = seed_state ub.2 := rfl
  rw [hc, hm, hs]
  rfl

/-- The CJK code-point ranges as named by the spec: CJK Unified Ideographs,
Hiragana/Katakana, Hangul Jamo and syllables, CJK symbols and punctuation,
full-width forms, and the related supplementary ranges. -/
def cjk_block (c : Char) : Prop :=
  (0x4E00 ≤ c.toNat ∧ c.toNat ≤ 0x9FFF) ∨ (0x3040 ≤ c.toNat ∧ c.toNat ≤ 0x30FF) ∨
  (0x1100 ≤ c.toNat ∧ c.toNat ≤ 0x11FF) ∨ (0x3130 ≤ c.toNat ∧ c.toNat ≤ 0x318F) ∨
  (0xAC00 ≤ c.toNat ∧ c.toNat ≤ 0xD7AF) ∨ (0x3000 ≤ c.toNat ∧ c.toNat ≤ 0x303F) ∨
  (0xFE30 ≤ c.toNat ∧ c.toNat ≤ 0xFE4F) ∨ (0xFF00 ≤ c.toNat ∧ c.toNat ≤ 0xFFEF)

instance cjk_block_decidable (c : Char) : Decidable (cjk_block c) := by
  unfold cjk_block; infer_instance

theorem is_cjk_iff (c : Char) : is_cjk c = true ↔ cjk_block c := by
  simp [is_cjk, cjk_ranges, cjk_block]

/-- Claim C2: the word-separator returns `""` when both characters lie in the
defined CJK ranges; otherwise `""` when the first character is a hyphen;
otherwise `""` when `catP` (the Unicode general category starts with `P`)
holds of the second character; and `" "` in all remaining cases, applied in
exactly that precedence order. -/
theorem c2_word_separator_rules (catP : Char → Bool) (c1 c2 : Char) :
    word_separator catP c1 c2 =
      if cjk_block c1 ∧ cjk_block c2 then ""
      else if c1 = '-' then ""
      else if catP c2 = true then ""
      else " " := by
  have hb : ((is_cjk c1 && is_cjk c2) = true) ↔ (cjk_block c1 ∧ cjk_block c2) := by
    rw [Bool.and_eq_true, is_cjk_iff, is_cjk_iff]
  unfold word_separator
  by_cases h12 : cjk_block c1 ∧ cjk_block c2
  · rw [if_pos (hb.mpr h12), if_pos h12]
  · rw [if_neg (fun hcontra => h12 (hb.mp hcontra)), if_neg h12]

/-- Claim C5: an observation is dropped by the ignore filter if and only if
the center of its bbox lies (boundary inclusive) in some ignore rectangle;
an inverted rectangle matches nothing; and the filter keeps or drops a block
according to exactly this center test on `(box[0], box[2])`. -/
theorem c5_ignore_center (x0 y0 x1 y1 : ℚ) (areas : List (ℚ × ℚ × ℚ × ℚ))
    (ainv : ℚ × ℚ × ℚ × ℚ) (b : TextBlock)
    (ha : ainv.2.2.1 < ainv.1 ∨ ainv.2.2.2 < ainv.2.1)
    (hb : block_bbox b = some (x0, y0, x1, y1)) :
    (is_in_ignore_area (x0, y0, x1, y1) areas = true ↔
       ∃ a ∈ areas, a.1 ≤ (x0 + x1) / 2 ∧ (x0 + x1) / 2 ≤ a.2.2.1 ∧
         a.2.1 ≤ (y0 + y1) / 2 ∧ (y0 + y1) / 2 ≤ a.2.2.2) ∧
    is_in_ignore_area (x0, y0, x1, y1) [ainv] = false ∧
    filter_ignore_areas [b] areas =
      some (if is_in_ignore_area (x0, y0, x1, y1) areas then [] else [b]) := by
  refine ⟨?_, ?_, ?_⟩
  · simp [is_in_ignore_area, List.any_eq_true]
  · have hno : ¬ (ainv.1 ≤ (x0 + x1) / 2 ∧ (x0 + x1) / 2 ≤ ainv.2.2.1 ∧
        ainv.2.1 ≤ (y0 + y1) / 2 ∧ (y0 + y1) / 2 ≤ ainv.2.2.2) := by
      rintro ⟨h1, h2, h3, h4⟩
      rcases ha with h | h
      · exact absurd (le_trans h1 h2) (not_le.mpr h)
      · exact absurd (le_trans h3 h4) (not_le.mpr h)
    rw [Bool.eq_false_iff]
    intro htrue
    simp only [is_in_ignore_area, List.any_eq_true, List.mem_singleton,
      decide_eq_true_eq] at htrue
    obtain ⟨a, haeq, hcond⟩ := htrue
    subst haeq
    exact hno hcond
  · simp [filter_ignore_areas, hb]

end PdfProc

namespace PdfProc

/-! ### Concrete inputs from the spec's end-to-end example and edge cases -/

def hello_block : TextBlock :=
  { box := [(0, 0), (100, 0), (100, 20), (0, 20)], text := ['H', 'e', 'l', 'l', 'o']
  , src := "text", end_ := "", score := none }

def world_block : TextBlock :=
  { box := [(0, 22), (100, 22), (100, 42), (0, 42)], text := ['W', 'o', 'r', 'l', 'd']
  , src := "text", end_ := "", score := none }

def footer_block : TextBlock :=
  { box := [(0, 200), (100, 200), (100, 220), (0, 220)], text := ['F', 'o', 'o', 't', 'e', 'r']
  , src := "text", end_ := "", score := none }

/-- Claim C3: on the three observations Hello/World/Footer with the single
ignore rectangle `(0,190,200,230)`, filtering followed by reconstruction
yields exactly one paragraph: Hello with separator `" "`, World with
separator `"\n"`, and Footer excluded. (`catP 'W' = false` records that `W`
is not a Unicode punctuation character.) -/
theorem c3_end_to_end (catP : Char → Bool) (h : catP 'W' = false) :
    pipeline catP [hello_block, world_block, footer_block] [(0, 190, 200, 230)] =
      some [{ hello_block with end_ := " " }, { world_block with end_ := "\n" }] := by
  have h1 : pipeline catP [hello_block, world_block, footer_block] [(0, 190, 200, 230)] =
      some [{ hello_block with end_ := word_separator catP 'o' 'W' },
            { world_block with end_ := "\n" }] := by
    with_unfolding_all rfl
  have h2 : word_separator catP 'o' 'W' = " " := by
    simp only [word_separator]
    rw [h]
    decide
  rw [h1, h2]

theorem c3_end_to_end_witness :
    (fun _ => false : Char → Bool) 'W' = false ∧
    pipeline (fun _ => false) [hello_block, world_block, footer_block] [(0, 190, 200, 230)] =
      some [{ hello_block with end_ := " " }, { world_block with end_ := "\n" }] :=
  ⟨rfl, c3_end_to_end (fun _ => false) rfl⟩

/-- An OCR block whose box has only three points: the code's ignore filter
reads only `box[0]` and `box[2]`, so nothing rejects it. -/
def tri_block : TextBlock :=
  { box := [(0, 0), (10, 0), (10, 10)], text := ['A'], src := "ocr", end_ := "", score := some 1 }

/-- Claim C6 (refuting evaluation): a block whose box has fewer than 4 points
passes the ignore filter untouched and is processed by the paragraph
reconstructor, which assigns it a separator — no validation excludes it. -/
theorem c6_no_geometry_validation :
    tri_block.box.length < 4 ∧
    filter_ignore_areas [tri_block] [] = some [tri_block] ∧
    run (fun _ => false) [tri_block] = some [{ tri_block with end_ := "\n" }] := by
  decide

/-- First observation of the degenerate-box counterexample: `top == bottom`,
so the seeded running line height is `0`. -/
def degenA : TUnit :=
  { box := [(0, 0), (10, 0), (10, 0), (0, 0)], first := 'a', last := 'a', idx := 0 }

/-- Second observation: margins exactly equal to the first one's. -/
def degenB : TUnit :=
  { box := [(0, 5), (10, 5), (10, 5), (0, 5)], first := 'b', last := 'b', idx := 1 }

/-- Claim C7 (counterexample): after a degenerate first box the running line
height is `0`, yet the next observation does not start a new paragraph — with
exactly matching margins and no established spacing it merges, producing a
single paragraph containing both observations. -/
theorem c7_counterexample :
    (get_bbox_bounds degenA.box).map (fun e => e.b - e.t) = some 0 ∧
    (parse_paras [degenA, degenB]).map (fun ps => ps.map (fun p => p.map (fun ub => ub.1.idx)))
      = some [[0, 1]] :=
  of_decide_eq_true (by with_unfolding_all rfl)

/-- Claim C7 (amended): a degenerate box is processed without error; a running
line height of `0` makes both margin tolerances `0`, so the next observation
is forced into a new paragraph whenever its left or right margin differs at
all from the running margins (an observation whose margins match exactly may
still merge, as the counterexample shows). -/
theorem c7_amended_zero_height_forces_split
    (st : PState) (cur rest : List UB) (ub : UB)
    (h0 : st.para_line_h = 0)
    (hne : ub.2.l ≠ st.para_l ∨ ub.2.r ≠ st.para_r) :
    parseAux st cur (ub :: rest) = cur :: parseAux (seed_state ub.2) [ub] rest := by
  have hsp : same_para st ub.2.l ub.2.r (ub.2.t - st.para_bottom) = false := by
    rw [Bool.eq_false_iff]
    intro htrue
    rw [same_para, Bool.and_eq_true, Bool.and_eq_true] at htrue
    obtain ⟨⟨h1, h2⟩, -⟩ := htrue
    rw [decide_eq_true_eq] at h1 h2
    rw [h0, zero_mul] at h1 h2
    rcases hne with h | h
    · exact h (sub_eq_zero.mp (abs_nonpos_iff.mp h1)).symm
    · exact h (sub_eq_zero.mp (abs_nonpos_iff.mp h2)).symm
  simp [parseAux, hsp]

theorem c7_amended_witness :
    (⟨0, 10, 0, 0, none⟩ : PState).para_line_h = 0 ∧
    (((degenB, ⟨1, 5, 10, 5⟩) : UB).2.l ≠ (⟨0, 10, 0, 0, none⟩ : PState).para_l ∨
     ((degenB, ⟨1, 5, 10, 5⟩) : UB).2.r ≠ (⟨0, 10, 0, 0, none⟩ : PState).para_r) ∧
    parseAux ⟨0, 10, 0, 0, none⟩ [(degenA, ⟨0, 0, 10, 0⟩)] [(degenB, ⟨1, 5, 10, 5⟩)] =
      [(degenA, ⟨0, 0, 10, 0⟩)] ::
        parseAux (seed_state (⟨1, 5, 10, 5⟩ : Ext)) [(degenB, ⟨1, 5, 10, 5⟩)] [] :=
  ⟨rfl, Or.inl (by decide),
    c7_amended_zero_height_forces_split ⟨0, 10, 0, 0, none⟩ [(degenA, ⟨0, 0, 10, 0⟩)] []
      (degenB, ⟨1, 5, 10, 5⟩) rfl (Or.inl (by decide))⟩

/-- Claim C8: with an established inter-line spacing `s`, an observation with
identical left and right margins whose vertical gap from the running bottom
exceeds `s` by more than half the running line height is placed into a
separate (new) paragraph. -/
theorem c8_vertical_gap_splits
    (st : PState) (cur rest : List UB) (ub : UB) (s : ℚ)
    (hs : st.para_line_s = some s)
    (hl : ub.2.l = st.para_l) (hr : ub.2.r = st.para_r)
    (hgap : s + st.para_line_h * (1/2) < ub.2.t - st.para_bottom) :
    parseAux st cur (ub :: rest) = cur :: parseAux (seed_state ub.2) [ub] rest := by
  have hsp : same_para st ub.2.l ub.2.r (ub.2.t - st.para_bottom) = false := by
    rw [Bool.eq_false_iff]
    intro htrue
    rw [same_para, Bool.and_eq_true] at htrue
    obtain ⟨-, h3⟩ := htrue
    rw [hs] at h3
    simp only [spacing_ok, decide_eq_true_eq] at h3
    exact absurd h3 (not_lt.mpr (le_of_lt hgap))
  simp [parseAux, hsp]

theorem c8_vertical_gap_splits_witness :
    (⟨0, 10, 10, 2, some 1⟩ : PState).para_line_s = some 1 ∧
    ((degenB, ⟨0, 13, 10, 15⟩) : UB).2.l = (⟨0, 10, 10, 2, some 1⟩ : PState).para_l ∧
    ((degenB, ⟨0, 13, 10, 15⟩) : UB).2.r = (⟨0, 10, 10, 2, some 1⟩ : PState).para_r ∧
    (1 : ℚ) + (⟨0, 10, 10, 2, some 1⟩ : PState).para_line_h * (1/2) <
      ((degenB, ⟨0, 13, 10, 15⟩) : UB).2.t - (⟨0, 10, 10, 2, some 1⟩ : PState).para_bottom ∧
    parseAux ⟨0, 10, 10, 2, some 1⟩ [(degenA, ⟨0, 0, 10, 0⟩)] [(degenB, ⟨0, 13, 10, 15⟩)] =
      [(degenA, ⟨0, 0, 10, 0⟩)] ::
        parseAux (seed_state (⟨0, 13, 10, 15⟩ : Ext)) [(degenB, ⟨0, 13, 10, 15⟩)] [] :=
  ⟨rfl, rfl, rfl, by norm_num,
    c8_vertical_gap_splits ⟨0, 10, 10, 2, some 1⟩ [(degenA, ⟨0, 0, 10, 0⟩)] []
      (degenB, ⟨0, 13, 10, 15⟩) 1 rfl rfl rfl (by norm_num)⟩

end PdfProc

namespace PdfProc

/-! ### Structural lemmas about the clustering loop -/

theorem parseAux_flatten : ∀ (rest : List UB) (st : PState) (cur : List UB),
    (parseAux st cur rest).flatten = cur ++ rest := by
  intro rest
  induction rest with
  | nil =>
      intro st cur
      simp [parseAux]
  | cons ub tl ih =>
      intro st cur
      cases hsp : same_para st ub.2.l ub.2.r (ub.2.t - st.para_bottom) with
      | true =>
          simp only [parseAux, hsp, if_true]
          rw [ih]
          simp
      | false =>
          simp only [parseAux, hsp]
          rw [if_neg (by simp), List.flatten_cons, ih]
          simp

theorem para_seps_map_fst (catP : Char → Bool) :
    ∀ p : List UB, (para_seps catP p).map Prod.fst = p.map (fun ub => ub.1.idx) := by
  intro p
  induction p with
  | nil => rfl
  | cons u tl ih =>
      cases tl with
      | nil => rfl
      | cons v tl2 =>
          simp only [para_seps, List.map_cons] at ih ⊢
          rw [ih]

theorem para_seps_getLast (catP : Char → Bool) :
    ∀ (p : List UB) (u : UB), p.getLast? = some u →
      (para_seps catP p).getLast? = some (u.1.idx, "\n") := by
  intro p
  induction p with
  | nil =>
      intro u h
      simp at h
  | cons a tl ih =>
      intro u h
      cases tl with
      | nil =>
          simp at h
          subst h
          rfl
      | cons b tl2 =>
          rw [List.getLast?_cons_cons] at h
          have h2 := ih u h
          cases hps : para_seps catP (b :: tl2) with
          | nil => cases tl2 <;> simp [para_seps] at hps
          | cons q qs =>
              rw [hps] at h2
              have hstep : para_seps catP (a :: b :: tl2)
                  = (a.1.idx, word_separator catP a.1.last b.1.first)
                      :: para_seps catP (b :: tl2) := rfl
              rw [hstep, hps, List.getLast?_cons_cons]
              exact h2

theorem flatMap_para_seps_fst (catP : Char → Bool) :
    ∀ ps : List (List UB),
      (ps.flatMap (para_seps catP)).map Prod.fst
        = ps.flatten.map (fun ub => ub.1.idx) := by
  intro ps
  induction ps with
  | nil => rfl
  | cons p tl ih =>
      rw [List.flatMap_cons, List.flatten_cons, List.map_append, List.map_append,
        ih, para_seps_map_fst]

theorem annotate_map_fst : ∀ {units : List TUnit} {ubs : List UB},
    annotate units = some ubs → ubs.map Prod.fst = units := by
  intro units
  induction units with
  | nil =>
      intro ubs h
      simp only [annotate, Option.some.injEq] at h
      rw [← h]
      rfl
  | cons u tl ih =>
      intro ubs h
      cases hbe : get_bbox_bounds u.box with
      | none =>
          simp only [annotate, hbe] at h
          exact Option.noConfusion h
      | some e =>
          cases hta : annotate tl with
          | none =>
              simp only [annotate, hbe, hta] at h
              exact Option.noConfusion h
          | some tl' =>
              simp only [annotate, hbe, hta, Option.some.injEq] at h
              rw [← h, List.map_cons, ih hta]

/-- Claim C4: reconstruction partitions its input. The flattening of the
produced paragraphs is exactly the stably-sorted unit list (so each
observation lies in exactly one paragraph, in sorted order), it is a
permutation of the input units (none dropped, none duplicated), every
observation receives exactly one separator assignment, and the final
observation of every paragraph is assigned `"\n"`. -/
theorem c4_partition (catP : Char → Bool) (units : List TUnit) (paras : List (List UB))
    (h : parse_paras units = some paras) :
    List.Perm (paras.flatten.map Prod.fst) units ∧
    (∃ ubs, annotate units = some ubs ∧ paras.flatten = sort_top ubs) ∧
    (paras.flatMap (para_seps catP)).map Prod.fst
      = paras.flatten.map (fun ub => ub.1.idx) ∧
    parse catP units = some (paras.flatMap (para_seps catP)) ∧
    ∀ p ∈ paras, ∀ u : UB, p.getLast? = some u →
      (para_seps catP p).getLast? = some (u.1.idx, "\n") := by
  have hmain : List.Perm (paras.flatten.map Prod.fst) units ∧
      (∃ ubs, annotate units = some ubs ∧ paras.flatten = sort_top ubs) := by
    cases units with
    | nil =>
        simp only [parse_paras, Option.some.injEq] at h
        subst h
        exact ⟨by simp, ⟨[], rfl, by simp [sort_top]⟩⟩
    | cons u0 tl =>
        cases hann : annotate (u0 :: tl) with
        | none =>
            simp only [parse_paras, hann] at h
            exact Option.noConfusion h
        | some ubs =>
            simp only [parse_paras, hann] at h
            have hlen : ubs.length = tl.length + 1 := by
              have hm := annotate_map_fst hann
              have := congrArg List.length hm
              simpa using this
            cases hst : sort_top ubs with
            | nil =>
                exfalso
                have hl : (sort_top ubs).length = ubs.length :=
                  List.length_insertionSort _ _
                rw [hst, hlen] at hl
                simp at hl
            | cons ub0 rest =>
                rw [hst] at h
                simp only [Option.some.injEq] at h
                subst h
                have hflat : (parseAux (seed_state ub0.2) [ub0] rest).flatten
                    = ub0 :: rest := by
                  rw [parseAux_flatten]
                  rfl
                refine ⟨?_, ⟨ubs, rfl, by rw [hflat, hst]⟩⟩
                rw [hflat, ← hst, ← annotate_map_fst hann]
                exact (List.perm_insertionSort _ ubs).map Prod.fst
  refine ⟨hmain.1, hmain.2, flatMap_para_seps_fst catP paras, ?_, ?_⟩
  · rw [parse, h]
    rfl
  · intro p _ u hu
    exact para_seps_getLast catP p u hu

def unitA : TUnit :=
  { box := [(0, 0), (10, 0), (10, 2), (0, 2)], first := 'a', last := 'a', idx := 0 }

def unitB : TUnit :=
  { box := [(0, 3), (10, 3), (10, 5), (0, 5)], first := 'b', last := 'b', idx := 1 }

def parasAB : List (List UB) :=
  [[(unitA, ⟨0, 0, 10, 2⟩), (unitB, ⟨0, 3, 10, 5⟩)]]

theorem c4_partition_witness :
    parse_paras [unitA, unitB] = some parasAB ∧
    (List.Perm (parasAB.flatten.map Prod.fst) [unitA, unitB] ∧
     (∃ ubs, annotate [unitA, unitB] = some ubs ∧ parasAB.flatten = sort_top ubs) ∧
     (parasAB.flatMap (para_seps (fun _ => false))).map Prod.fst
       = parasAB.flatten.map (fun ub => ub.1.idx) ∧
     parse (fun _ => false) [unitA, unitB]
       = some (parasAB.flatMap (para_seps (fun _ => false))) ∧
     ∀ p ∈ parasAB, ∀ u : UB, p.getLast? = some u →
       (para_seps (fun _ => false) p).getLast? = some (u.1.idx, "\n")) :=
  ⟨of_decide_eq_true (by with_unfolding_all rfl),
   c4_partition (fun _ => false) [unitA, unitB] parasAB
     (of_decide_eq_true (by with_unfolding_all rfl))⟩

end PdfProc

namespace PdfProc

/-! ### Frame effect and totality -/

/-- Everything in a block except its mutable `end` field. -/
def frame_of (b : TextBlock) : List (ℚ × ℚ) × List Char × String × Option ℚ :=
  (b.box, b.text, b.src, b.score)

theorem set_end_frame : ∀ (bs : List TextBlock) (i : Nat) (s : String),
    (set_end bs i s).map frame_of = bs.map frame_of := by
  intro bs
  induction bs with
  | nil => intro i s; rfl
  | cons b tl ih =>
      intro i s
      cases i with
      | zero => rfl
      | succ n => simp [set_end, ih]

theorem set_ends_frame : ∀ (asg : List (Nat × String)) (bs : List TextBlock),
    (set_ends bs asg).map frame_of = bs.map frame_of := by
  intro asg
  induction asg with
  | nil => intro bs; rfl
  | cons p tl ih =>
      intro bs
      have hstep : set_ends bs (p :: tl) = set_ends (set_end bs p.1 p.2) tl := rfl
      rw [hstep, ih, set_end_frame]

/-- Claim C9: `run` returns the block sequence it was given — same length and,
position by position, identical `box`, `text`, provenance tag and `score`;
only the `end` field is (possibly) changed. The sort is internal to the units
list and never reorders the returned blocks. -/
theorem c9_frame_effect (catP : Char → Bool) (blocks out : List TextBlock)
    (h : run catP blocks = some out) :
    out.length = blocks.length ∧ out.map frame_of = blocks.map frame_of := by
  have hout : ∃ asg, out = set_ends blocks asg := by
    cases hus : getUnits blocks with
    | none =>
        simp only [run, hus] at h
        exact Option.noConfusion h
    | some us =>
        cases hasg : parse catP us with
        | none =>
            simp only [run, hus, hasg] at h
            exact Option.noConfusion h
        | some asg =>
            simp only [run, hus, hasg, Option.some.injEq] at h
            exact ⟨asg, h.symm⟩
  obtain ⟨asg, rfl⟩ := hout
  refine ⟨?_, set_ends_frame asg blocks⟩
  have := congrArg List.length (set_ends_frame asg blocks)
  simpa using this

theorem c9_frame_effect_witness :
    run (fun _ => false) [hello_block] = some [{ hello_block with end_ := "\n" }] ∧
    ([{ hello_block with end_ := "\n" }] : List TextBlock).length = [hello_block].length ∧
    ([{ hello_block with end_ := "\n" }] : List TextBlock).map frame_of
      = [hello_block].map frame_of :=
  ⟨of_decide_eq_true (by with_unfolding_all rfl),
   c9_frame_effect (fun _ => false) [hello_block] [{ hello_block with end_ := "\n" }]
     (of_decide_eq_true (by with_unfolding_all rfl))⟩

theorem getUnitsAux_total : ∀ (blocks : List TextBlock) (i : Nat),
    (∀ b ∈ blocks, b.text ≠ []) →
    ∃ us, getUnitsAux i blocks = some us ∧ us.map TUnit.box = blocks.map TextBlock.box := by
  intro blocks
  induction blocks with
  | nil => intro i _; exact ⟨[], rfl, rfl⟩
  | cons b tl ih =>
      intro i h
      have hb : b.text ≠ [] := h b (by simp)
      obtain ⟨c1, hc1⟩ : ∃ c, b.text.head? = some c := by
        cases hbt : b.text with
        | nil => exact absurd hbt hb
        | cons c cs => exact ⟨c, rfl⟩
      obtain ⟨c2, hc2⟩ : ∃ c, b.text.getLast? = some c := by
        have : b.text.getLast?.isSome := List.getLast?_isSome.mpr hb
        exact Option.isSome_iff_exists.mp this
      obtain ⟨us, hus, hmap⟩ := ih (i + 1) (fun x hx => h x (by simp [hx]))
      refine ⟨⟨b.box, c1, c2, i⟩ :: us, ?_, ?_⟩
      · simp [getUnitsAux, hc1, hc2, hus]
      · simp [hmap]

theorem annotate_total : ∀ (units : List TUnit), (∀ u ∈ units, u.box ≠ []) →
    ∃ ubs, annotate units = some ubs := by
  intro units
  induction units with
  | nil => intro _; exact ⟨[], rfl⟩
  | cons u tl ih =>
      intro h
      obtain ⟨tl', htl⟩ := ih (fun x hx => h x (by simp [hx]))
      obtain ⟨e, he⟩ : ∃ e, get_bbox_bounds u.box = some e := by
        cases hbox : u.box with
        | nil => exact absurd hbox (h u (by simp))
        | cons p ps => exact ⟨_, rfl⟩
      exact ⟨(u, e) :: tl', by simp [annotate, he, htl]⟩

theorem parse_total (catP : Char → Bool) (units : List TUnit)
    (h : ∀ u ∈ units, u.box ≠ []) : (parse catP units).isSome := by
  cases units with
  | nil => rfl
  | cons u tl =>
      obtain ⟨ubs, hann⟩ := annotate_total (u :: tl) h
      simp only [parse, parse_paras, hann]
      cases hst : sort_top ubs <;> simp [hst]

/-- Claim C10: `ParagraphParse.run` terminates normally (returns a value, never
raises) on every block list whose texts are non-empty and whose boxes are
non-empty point lists; the empty list yields the empty result unchanged. -/
theorem c10_run_total (catP : Char → Bool) (blocks : List TextBlock)
    (htext : ∀ b ∈ blocks, b.text ≠ [])
    (hbox : ∀ b ∈ blocks, b.box ≠ []) :
    (run catP blocks).isSome ∧ run catP [] = some [] := by
  refine ⟨?_, rfl⟩
  obtain ⟨us, hus, hmap⟩ := getUnitsAux_total blocks 0 htext
  have hub : ∀ u ∈ us, u.box ≠ [] := by
    intro u hu
    have hmem : u.box ∈ us.map TUnit.box := List.mem_map_of_mem _ hu
    rw [hmap] at hmem
    obtain ⟨b, hb, hbe⟩ := List.mem_map.mp hmem
    rw [← hbe]
    exact hbox b hb
  have hp := parse_total catP us hub
  obtain ⟨asg, hasg⟩ := Option.isSome_iff_exists.mp hp
  have hgu : getUnits blocks = some us := hus
  simp only [run, hgu, hasg, Option.isSome_some]

theorem c10_run_total_witness :
    (∀ b ∈ [hello_block], b.text ≠ []) ∧
    (∀ b ∈ [hello_block], b.box ≠ []) ∧
    ((run (fun _ => false) [hello_block]).isSome ∧ run (fun _ => false) [] = some []) :=
  ⟨by decide, by decide,
   c10_run_total (fun _ => false) [hello_block] (by decide) (by decide)⟩

end PdfProc

namespace PdfProc

theorem c5_ignore_center_witness :
    (is_in_ignore_area (0, 0, 100, 20) [((0 : ℚ), (0 : ℚ), (200 : ℚ), (200 : ℚ))] = true ↔
       ∃ a ∈ [((0 : ℚ), (0 : ℚ), (200 : ℚ), (200 : ℚ))],
         a.1 ≤ ((0 : ℚ) + 100) / 2 ∧ ((0 : ℚ) + 100) / 2 ≤ a.2.2.1 ∧
         a.2.1 ≤ ((0 : ℚ) + 20) / 2 ∧ ((0 : ℚ) + 20) / 2 ≤ a.2.2.2) ∧
    is_in_ignore_area (0, 0, 100, 20) [((3 : ℚ), (0 : ℚ), (1 : ℚ), (5 : ℚ))] = false ∧
    filter_ignore_areas [hello_block] [(0, 0, 200, 200)] =
      some (if is_in_ignore_area (0, 0, 100, 20) [(0, 0, 200, 200)] then []
            else [hello_block]) :=
  c5_ignore_center 0 0 100 20 [(0, 0, 200, 200)] (3, 0, 1, 5) hello_block
    (Or.inl (by norm_num)) rfl

end PdfProc
